import Mathlib

/-!
Shallow embedding of the invoice-extraction normalization pipeline of
`OCR_Invoices_Output_Excel.py` (and its twin `OCR_Invoices_Output_Excel_Gemini.py`).

JSON values produced by the model call are modelled as scalars or flat
sequences of scalars, and a parsed object (a Python `dict`) as an
insertion-ordered association list.  Pandas `NaN` cells are modelled by an
explicit `Cell.nan` constructor, numeric values by `Rat` (Python floats are
treated as exact numbers; the claims are about value-level behaviour).
An exception raised inside `process_pdf`'s `try` block is modelled with
`Except`.
-/

/-- A JSON scalar: string, number, boolean, or null. -/
inductive JScalar where
  | s (v : String)
  | n (v : Rat)
  | b (v : Bool)
  | null
deriving DecidableEq

/-- A JSON value stored in a parsed extraction: a scalar or a flat
sequence of scalars (the shapes the pipeline manipulates). -/
inductive JVal where
  | scalar (v : JScalar)
  | arr (vs : List JScalar)
deriving DecidableEq

/-- A parsed extraction (`json_data` in the source): an insertion-ordered
association list, modelling a Python `dict`. -/
abbrev JObj := List (String × JVal)

/-- First-match association lookup, modelling Python `dict` access /
`key in dict` (on a `dict` keys are unique, so first match is the match). -/
def alookup {α : Type} : List (String × α) → String → Option α
  | [], _ => none
  | (k, v) :: rest, key => if k = key then some v else alookup rest key

/-- Python `str.strip()`: remove leading and trailing whitespace.
Written with structural list recursion so that it evaluates on concrete
strings inside proofs. -/
def pyStrip (s : String) : String :=
  ⟨((s.toList.dropWhile Char.isWhitespace).reverse.dropWhile Char.isWhitespace).reverse⟩

/-- Python truthiness of a JSON value, as used by `not json_data['Product']`:
empty string, zero, `false`, `null` and the empty list are falsy. -/
def truthy : JVal → Bool
  | .scalar (.s v) => !(v == "")
  | .scalar (.n q) => !(q == 0)
  | .scalar (.b v) => v
  | .scalar .null => false
  | .arr vs => !vs.isEmpty

/-- Index of the first character satisfying `p`, if any. -/
def findFirst (p : Char → Bool) : List Char → Option Nat
  | [] => none
  | c :: cs => if p c then some 0 else (findFirst p cs).map (· + 1)

/-- Index of the last character satisfying `p`, if any. -/
def findLast (p : Char → Bool) : List Char → Option Nat
  | [] => none
  | c :: cs =>
    match findLast p cs with
    | some k => some (k + 1)
    | none => if p c then some 0 else none

/-- The span matched by `re.search(r'\x7b.*\x7d', text, re.DOTALL)`: the
substring running from the first opening brace to the last closing brace,
provided the latter occurs strictly after the former (the regex requires a
closing brace after the opening one; greedy `.*` under DOTALL reaches the
last closing brace in the whole text). -/
def braceSpan (cs : List Char) : Option (List Char) :=
  match findFirst (fun c => c == '{') cs, findLast (fun c => c == '}') cs with
  | some i, some j => if i < j then some ((cs.drop i).take (j - i + 1)) else none
  | _, _ => none

/-- Embedding of `extract_json_from_response` (lines 61-74).  JSON parsing
itself (`json.loads`) is an external library call and is passed in as a
parameter `parseJson`; `none` models a `json.JSONDecodeError`.  The function
returns `none` when no brace-delimited span exists, when the span does not
parse, or when the parsed object lacks a truthy `Product` entry; otherwise
it returns the parsed object unchanged. -/
def extract_json_from_response (parseJson : List Char → Option JObj)
    (text : List Char) : Option JObj :=
  match braceSpan text with
  | none => none
  | some sub =>
    match parseJson sub with
    | none => none
    | some jd =>
      match alookup jd "Product" with
      | none => none
      | some v => if truthy v then some jd else none

/-- Is the value a sequence (`isinstance(value, list)`)? -/
def isArr : JVal → Bool
  | .arr _ => true
  | _ => false

/-- The keys of sequence-valued fields, in insertion order
(`array_keys` in the source, line 78). -/
def array_keys (j : JObj) : List String :=
  (j.filter (fun kv => isArr kv.2)).map Prod.fst

/-- Lengths of the non-empty sequence-valued fields, in insertion order
(`non_empty_lengths`, line 83). -/
def non_empty_lengths (j : JObj) : List Nat :=
  j.filterMap fun kv =>
    match kv.2 with
    | .arr xs => if xs.length > 0 then some xs.length else none
    | .scalar _ => none

/-- The largest multiplicity occurring in `l`. -/
def maxCount (l : List Nat) : Nat :=
  (l.map fun x => l.count x).foldr max 0

/-- Embedding of `Counter(l).most_common(1)[0][0]` (lines 88-89): the
first-encountered value of maximal multiplicity.  A `Counter` records keys
in first-insertion order and `most_common` (via the stable `heapq.nlargest`)
breaks multiplicity ties in favour of the earlier-inserted key, so the
result is the first element of `l` whose multiplicity is maximal.
Returns 0 on the empty list (the source never calls it on one). -/
def pickMostCommon (l : List Nat) : Nat :=
  match l.find? (fun x => decide (maxCount l ≤ l.count x)) with
  | some x => x
  | none => 0

/-- The type-appropriate filler value (lines 96 and 100): numeric 0 for the
`Qty`, `U.Price` and `Total` fields, the empty string otherwise. -/
def fillerFor (key : String) : JScalar :=
  if key == "Qty" || key == "U.Price" || key == "Total" then .n 0 else .s ""

/-- The per-field adjustment of `ensure_equal_length_arrays` (lines 92-104):
an empty sequence is replaced by `target` fillers, a short one is padded on
the right with fillers, a long one is truncated to its first `target`
elements, and one already of length `target` is left unchanged. -/
def adjustArr (key : String) (target : Nat) (xs : List JScalar) : List JScalar :=
  if xs.length = 0 then List.replicate target (fillerFor key)
  else if xs.length < target then xs ++ List.replicate (target - xs.length) (fillerFor key)
  else if xs.length > target then xs.take target
  else xs

/-- The adjustment applied to a field's value: sequences are adjusted,
scalars are left as they are (the loop runs over `array_keys` only). -/
def adjustVal (key : String) (target : Nat) : JVal → JVal
  | .arr xs => .arr (adjustArr key target xs)
  | v => v

/-- Embedding of `ensure_equal_length_arrays` (lines 76-106): if there are
no sequence-valued fields, or all sequences are empty, the object is
returned unchanged; otherwise every sequence-valued field is adjusted to
the dominant length. -/
def ensure_equal_length_arrays (j : JObj) : JObj :=
  if array_keys j = [] then j
  else if non_empty_lengths j = [] then j
  else
    let target_length := pickMostCommon (non_empty_lengths j)
    j.map fun kv => (kv.1, adjustVal kv.1 target_length kv.2)

/-- A pandas cell: a string, a number, a boolean, or `NaN` (also modelling
`None` entries, which pandas treats as missing). -/
inductive Cell where
  | s (v : String)
  | n (v : Rat)
  | b (v : Bool)
  | nan
deriving DecidableEq

/-- A pandas `DataFrame`: named columns of cells, in column order. -/
abbrev Frame := List (String × List Cell)

/-- Column access `df[k]`: raises `KeyError` when the column is absent. -/
def colGet (f : Frame) (k : String) : Except String (List Cell) :=
  match alookup f k with
  | some c => .ok c
  | none => .error "KeyError"

/-- A JSON scalar placed into a `DataFrame` cell (`null` becomes missing). -/
def cellOf : JScalar → Cell
  | .s v => .s v
  | .n v => .n v
  | .b v => .b v
  | .null => .nan

/-- Lengths of all sequence-valued fields (used to model the length check
`pd.DataFrame` performs on a dict of lists). -/
def listLens (j : JObj) : List Nat :=
  j.filterMap fun kv =>
    match kv.2 with
    | .arr xs => some xs.length
    | .scalar _ => none

/-- A field's column in the constructed frame: a sequence becomes its cells,
a scalar is broadcast over the `len` rows of the index. -/
def colOf (len : Nat) : JVal → List Cell
  | .arr xs => xs.map cellOf
  | .scalar v => List.replicate len (cellOf v)

/-- Embedding of `pd.DataFrame(json_data)`: every sequence becomes a column;
scalar entries are broadcast to the common length.  Pandas raises when the
sequences have unequal lengths or when no sequence fixes an index. -/
def mkFrame (j : JObj) : Except String Frame :=
  match listLens j with
  | [] => .error "ValueError: all scalar values"
  | len :: rest =>
    if rest.all (fun m => m == len) then
      .ok (j.map fun kv => (kv.1, colOf len kv.2))
    else .error "ValueError: ragged arrays"

/-- Digit-string value: `some` of the base-10 value when every character is
a digit (the empty list giving 0), `none` otherwise. -/
def digitsVal (cs : List Char) : Option Nat :=
  cs.foldl
    (fun acc c => acc.bind fun m =>
      if c.isDigit then some (10 * m + (c.toNat - 48)) else none)
    (some 0)

/-- Models `pd.to_numeric` on a single string: parses an optionally signed
decimal literal (integer part, optional fractional part), returning `none`
for anything else.  Exponents and thousands separators are not modelled;
no claim exercises them. -/
def parseDecimal (str : String) : Option Rat :=
  let cs := (pyStrip str).toList
  let signed : Bool × List Char :=
    match cs with
    | '-' :: rest => (true, rest)
    | '+' :: rest => (false, rest)
    | _ => (false, cs)
  let body := signed.2
  let intPart := body.takeWhile (fun c => !(c == '.'))
  let rest := body.dropWhile (fun c => !(c == '.'))
  let mag : Option Rat :=
    match rest with
    | [] =>
      if intPart.isEmpty then none
      else (digitsVal intPart).map fun m => (m : Rat)
    | _ :: frac =>
      if intPart.isEmpty && frac.isEmpty then none
      else do
        let ip ← digitsVal intPart
        let fp ← digitsVal frac
        some ((ip : Rat) + (fp : Rat) / ((10 : Rat) ^ frac.length))
  mag.map fun m => if signed.1 then -m else m

/-- Embedding of `pd.to_numeric(col, errors='coerce')` on one cell:
numbers stay, booleans become 0/1, numeric strings are parsed, and
everything else degrades to missing. -/
def coerceCell : Cell → Cell
  | .n q => .n q
  | .b v => .n (if v then 1 else 0)
  | .s v =>
    match parseDecimal v with
    | some q => .n q
    | none => .nan
  | .nan => .nan

/-- The numeric columns coerced by the pipeline (line 292). -/
def numericCols : List String := ["Qty", "U.Price", "Total"]

/-- Embedding of the coercion loop (lines 292-294): each of `Qty`,
`U.Price`, `Total` that is present is coerced cell-wise. -/
def coerceNumericCols (f : Frame) : Frame :=
  f.map fun kv =>
    (kv.1, if kv.1 ∈ numericCols then kv.2.map coerceCell else kv.2)

/-- Column assignment `df[k] = v`: replaces the column in place when
present, otherwise appends it. -/
def setCol (f : Frame) (k : String) (v : List Cell) : Frame :=
  if k ∈ f.map Prod.fst then
    f.map fun kv => if kv.1 = k then (k, v) else kv
  else f ++ [(k, v)]

/-- Cell-wise `* 1.25` with `NaN` propagation (`df['U.Price'] * 1.25`). -/
def mul125 : Cell → Cell
  | .n q => .n (q * (5 / 4))
  | _ => .nan

/-- Embedding of lines 297-298: when a `U.Price` column exists, add the
derived `Marked_Up_Price` column. -/
def addMarkup (f : Frame) : Frame :=
  match alookup f "U.Price" with
  | some up => setCol f "Marked_Up_Price" (up.map mul125)
  | none => f

/-- The row count of a frame (the length of its index). -/
def nRows (f : Frame) : Nat :=
  match f with
  | [] => 0
  | c :: _ => c.2.length

/-- Embedding of line 301: `df['Source'] = basename` broadcasts the name
over all rows. -/
def addSource (f : Frame) (src : String) : Frame :=
  setCol f "Source" (List.replicate (nRows f) (.s src))

/-- Pandas `notna` on one cell. -/
def notna : Cell → Bool
  | .nan => false
  | _ => true

/-- The elementwise value of `df['Product'].str.strip() != ''`: for a
string cell, whether the trimmed string is non-empty; for every other cell
the `.str` accessor yields `NaN`, and `NaN != ''` evaluates to `True`. -/
def stripNe (c : Cell) : Bool :=
  match c with
  | .s v => !(pyStrip v == "")
  | _ => true

/-- The elementwise value of `df['Total'] > 0`: true for a positive number
(or `True`, which Python compares as 1), false for `NaN`. -/
def gtZero : Cell → Bool
  | .n q => decide (0 < q)
  | .b v => v
  | _ => false

/-- The row-keeping mask of `clean_dataframe` (lines 112-113), combining
the `Product` condition and the `Total` condition for one row. -/
def keepCell (p t : Cell) : Bool :=
  (stripNe p && notna p) || (gtZero t && notna t)

/-- The mask over all rows, from the `Product` and `Total` columns. -/
def rowMask (ps ts : List Cell) : List Bool :=
  List.zipWith keepCell ps ts

/-- Boolean-mask row selection `df[mask]`, applied to one column. -/
def applyMask {α : Type} : List α → List Bool → List α
  | [], _ => []
  | _ :: _, [] => []
  | c :: cs, m :: ms => if m then c :: applyMask cs ms else applyMask cs ms

/-- Embedding of `clean_dataframe` (lines 108-121): build the keep-mask from
the `Product` and `Total` columns (raising `KeyError` when either column is
absent) and select the masked rows in every column. -/
def clean_dataframe (f : Frame) : Except String Frame := do
  let ps ← colGet f "Product"
  let ts ← colGet f "Total"
  let mask := rowMask ps ts
  return f.map fun kv => (kv.1, applyMask kv.2 mask)

/-- The per-document processing of a parsed extraction (`process_pdf`
lines 288-302): reconcile array lengths, build the frame, coerce the
numeric columns, derive the markup column, attach the source, clean. -/
def pipeline (j : JObj) (src : String) : Except String Frame := do
  let f0 ← mkFrame (ensure_equal_length_arrays j)
  let f1 := coerceNumericCols f0
  let f2 := addMarkup f1
  let f3 := addSource f2 src
  clean_dataframe f3

/-- The per-document result including the surrounding `try`/`except`
(lines 248-308): any exception degrades the document to an empty frame. -/
def processDoc (j : JObj) (src : String) : Frame :=
  match pipeline j src with
  | .ok f => f
  | .error _ => []

/-- One materialized invoice row of the combined result, with the columns
the pipeline produces.  `none` models a missing (`NaN`) entry. -/
structure Row where
  date : String
  product : Option String
  qty : Option Rat
  uprice : Option Rat
  total : Option Rat
  marked : Option Rat
  source : String
deriving DecidableEq

/-- The row-level view of the `clean_dataframe` mask for one row: the
`Product` conjunct (`.str.strip() != ''`, which is `True` on a missing
value, conjoined with `notna`) or the `Total` conjunct. -/
def keepRow (r : Row) : Bool :=
  ((match r.product with
    | some v => !(pyStrip v == "")
    | none => true) && r.product.isSome)
  || ((match r.total with
      | some q => decide (0 < q)
      | none => false) && r.total.isSome)

/-- The row-level view of `clean_dataframe`: keep exactly the rows passing
the mask (the combined frame always has both columns, so no `KeyError`). -/
def cleanRows (rows : List Row) : List Row := rows.filter keepRow

/-- Comparison of `Product` keys: pandas sorts missing values last. -/
def optStrLe : Option String → Option String → Bool
  | some a, some b => decide (a ≤ b)
  | some _, none => true
  | none, some _ => false
  | none, none => true

/-- The `(Date, Product)` lexicographic key order used by
`sort_values(['Date', 'Product'])`, with plain string comparison. -/
def rowLe (a b : Row) : Bool :=
  decide (a.date < b.date) || (a.date == b.date && optStrLe a.product b.product)

/-- Embedding of the batch-aggregation tail of `process_folder`
(lines 428-436): concatenate the per-document results, re-clean, and sort
by `(Date, Product)`.  A multi-column `sort_values` runs `numpy.lexsort`,
a stable sort, modelled here by the stable `List.mergeSort`. -/
def combineRows (dfs : List (List Row)) : List Row :=
  (cleanRows dfs.flatten).mergeSort rowLe

namespace Gemini

/-- Twin of `truthy` from `OCR_Invoices_Output_Excel_Gemini.py`. -/
def truthy : JVal → Bool
  | .scalar (.s v) => !(v == "")
  | .scalar (.n q) => !(q == 0)
  | .scalar (.b v) => v
  | .scalar .null => false
  | .arr vs => !vs.isEmpty

/-- Twin of `findFirst` for the Gemini file's identical regex search. -/
def findFirst (p : Char → Bool) : List Char → Option Nat
  | [] => none
  | c :: cs => if p c then some 0 else (findFirst p cs).map (· + 1)

/-- Twin of `findLast` for the Gemini file's identical regex search. -/
def findLast (p : Char → Bool) : List Char → Option Nat
  | [] => none
  | c :: cs =>
    match findLast p cs with
    | some k => some (k + 1)
    | none => if p c then some 0 else none

/-- Twin of `braceSpan` (Gemini file, line 29). -/
def braceSpan (cs : List Char) : Option (List Char) :=
  match findFirst (fun c => c == '{') cs, findLast (fun c => c == '}') cs with
  | some i, some j => if i < j then some ((cs.drop i).take (j - i + 1)) else none
  | _, _ => none

/-- Twin of `alookup`. -/
def alookup {α : Type} : List (String × α) → String → Option α
  | [], _ => none
  | (k, v) :: rest, key => if k = key then some v else alookup rest key

/-- Embedding of `extract_json_from_response` of the Gemini file
(lines 27-40), whose body is character-for-character the same. -/
def extract_json_from_response (parseJson : List Char → Option JObj)
    (text : List Char) : Option JObj :=
  match braceSpan text with
  | none => none
  | some sub =>
    match parseJson sub with
    | none => none
    | some jd =>
      match alookup jd "Product" with
      | none => none
      | some v => if truthy v then some jd else none

/-- Twin of `isArr`. -/
def isArr : JVal → Bool
  | .arr _ => true
  | _ => false

/-- Twin of `array_keys` (Gemini file, line 44). -/
def array_keys (j : JObj) : List String :=
  (j.filter (fun kv => isArr kv.2)).map Prod.fst

/-- Twin of `non_empty_lengths` (Gemini file, line 49). -/
def non_empty_lengths (j : JObj) : List Nat :=
  j.filterMap fun kv =>
    match kv.2 with
    | .arr xs => if xs.length > 0 then some xs.length else none
    | .scalar _ => none

/-- Twin of `maxCount`. -/
def maxCount (l : List Nat) : Nat :=
  (l.map fun x => l.count x).foldr max 0

/-- Twin of `pickMostCommon` (Gemini file, lines 54-55). -/
def pickMostCommon (l : List Nat) : Nat :=
  match l.find? (fun x => decide (maxCount l ≤ l.count x)) with
  | some x => x
  | none => 0

/-- Twin of `fillerFor` (Gemini file, lines 62 and 66). -/
def fillerFor (key : String) : JScalar :=
  if key == "Qty" || key == "U.Price" || key == "Total" then .n 0 else .s ""

/-- Twin of `adjustArr` (Gemini file, lines 58-70). -/
def adjustArr (key : String) (target : Nat) (xs : List JScalar) : List JScalar :=
  if xs.length = 0 then List.replicate target (fillerFor key)
  else if xs.length < target then xs ++ List.replicate (target - xs.length) (fillerFor key)
  else if xs.length > target then xs.take target
  else xs

/-- Twin of `adjustVal`. -/
def adjustVal (key : String) (target : Nat) : JVal → JVal
  | .arr xs => .arr (adjustArr key target xs)
  | v => v

/-- Embedding of `ensure_equal_length_arrays` of the Gemini file
(lines 42-72), whose body is character-for-character the same. -/
def ensure_equal_length_arrays (j : JObj) : JObj :=
  if array_keys j = [] then j
  else if non_empty_lengths j = [] then j
  else
    let target_length := pickMostCommon (non_empty_lengths j)
    j.map fun kv => (kv.1, adjustVal kv.1 target_length kv.2)

/-- Twin of `colGet`. -/
def colGet (f : Frame) (k : String) : Except String (List Cell) :=
  match alookup f k with
  | some c => .ok c
  | none => .error "KeyError"

/-- Twin of `notna`. -/
def notna : Cell → Bool
  | .nan => false
  | _ => true

/-- Twin of `stripNe`. -/
def stripNe (c : Cell) : Bool :=
  match c with
  | .s v => !(pyStrip v == "")
  | _ => true

/-- Twin of `gtZero`. -/
def gtZero : Cell → Bool
  | .n q => decide (0 < q)
  | .b v => v
  | _ => false

/-- Twin of `keepCell` (Gemini file, lines 78-79). -/
def keepCell (p t : Cell) : Bool :=
  (stripNe p && notna p) || (gtZero t && notna t)

/-- Twin of `rowMask`. -/
def rowMask (ps ts : List Cell) : List Bool :=
  List.zipWith keepCell ps ts

/-- Twin of `applyMask`. -/
def applyMask {α : Type} : List α → List Bool → List α
  | [], _ => []
  | _ :: _, [] => []
  | c :: cs, m :: ms => if m then c :: applyMask cs ms else applyMask cs ms

/-- Embedding of `clean_dataframe` of the Gemini file (lines 74-87), whose
body is character-for-character the same. -/
def clean_dataframe (f : Frame) : Except String Frame := do
  let ps ← colGet f "Product"
  let ts ← colGet f "Total"
  let mask := rowMask ps ts
  return f.map fun kv => (kv.1, applyMask kv.2 mask)

end Gemini

theorem le_foldr_max {L : List Nat} {a : Nat} (h : a ∈ L) : a ≤ L.foldr max 0 := by
  induction L with
  | nil => cases h
  | cons b L ih =>
    simp only [List.foldr_cons]
    rcases List.mem_cons.mp h with rfl | h2
    · exact Nat.le_max_left _ _
    · exact Nat.le_trans (ih h2) (Nat.le_max_right _ _)

theorem foldr_max_mem (L : List Nat) : L.foldr max 0 = 0 ∨ L.foldr max 0 ∈ L := by
  induction L with
  | nil => left; rfl
  | cons b L ih =>
    simp only [List.foldr_cons]
    rcases max_choice b (L.foldr max 0) with h | h
    · right; rw [h]; exact List.mem_cons_self _ _
    · rw [h]
      rcases ih with h0 | hm
      · left; exact h0
      · right; exact List.mem_cons_of_mem _ hm

theorem count_le_maxCount {l : List Nat} {x : Nat} (h : x ∈ l) :
    l.count x ≤ maxCount l :=
  le_foldr_max (List.mem_map_of_mem _ h)

theorem maxCount_attained {l : List Nat} (h : l ≠ []) :
    ∃ x ∈ l, l.count x = maxCount l := by
  rcases foldr_max_mem (l.map fun x => l.count x) with h0 | hm
  · exfalso
    rcases List.exists_mem_of_ne_nil l h with ⟨a, ha⟩
    have h1 : 0 < l.count a := List.count_pos_iff.mpr ha
    have h2 := count_le_maxCount ha
    unfold maxCount at h2
    omega
  · rcases List.mem_map.mp hm with ⟨x, hx, hcx⟩
    exact ⟨x, hx, hcx⟩

theorem pickMostCommon_spec {l : List Nat} (h : l ≠ []) :
    pickMostCommon l ∈ l ∧ maxCount l ≤ l.count (pickMostCommon l) := by
  unfold pickMostCommon
  rcases maxCount_attained h with ⟨x, hx, hcx⟩
  have hsome : (l.find? (fun x => decide (maxCount l ≤ l.count x))).isSome := by
    rw [List.find?_isSome]
    exact ⟨x, hx, by simp [hcx]⟩
  rcases Option.isSome_iff_exists.mp hsome with ⟨y, hy⟩
  rw [hy]
  have hmem := List.mem_of_find?_eq_some hy
  have hp := List.find?_some hy
  simp only [decide_eq_true_eq] at hp
  exact ⟨hmem, hp⟩

theorem find?_idxOf_le {p : Nat → Bool} :
    ∀ {l : List Nat} {a : Nat}, l.find? p = some a →
      ∀ x ∈ l, p x = true → l.indexOf a ≤ l.indexOf x := by
  intro l
  induction l with
  | nil => intro a h; simp at h
  | cons b t ih =>
    intro a h x hx hpx
    by_cases hb : p b
    · rw [List.find?_cons_of_pos _ hb] at h
      injection h with h
      subst h
      rw [List.indexOf_cons_self]
      exact Nat.zero_le _
    · rw [List.find?_cons_of_neg _ hb] at h
      have hpa := List.find?_some h
      have hab : b ≠ a := fun e => hb (e ▸ hpa)
      have hxb : b ≠ x := fun e => hb (e ▸ hpx)
      rcases List.mem_cons.mp hx with rfl | hxt
      · exact absurd rfl hxb.symm
      · rw [List.indexOf_cons_ne _ hab, List.indexOf_cons_ne _ hxb]
        exact Nat.succ_le_succ (ih h x hxt hpx)

theorem pickMostCommon_first {l : List Nat} (h : l ≠ []) :
    ∀ x ∈ l, maxCount l ≤ l.count x →
      l.indexOf (pickMostCommon l) ≤ l.indexOf x := by
  intro x hx hcx
  unfold pickMostCommon
  rcases maxCount_attained h with ⟨y, hy, hcy⟩
  have hsome : (l.find? (fun x => decide (maxCount l ≤ l.count x))).isSome := by
    rw [List.find?_isSome]
    exact ⟨y, hy, by simp [hcy]⟩
  rcases Option.isSome_iff_exists.mp hsome with ⟨z, hz⟩
  rw [hz]
  exact find?_idxOf_le hz x hx (by simp [hcx])

theorem pickMostCommon_of_all_eq {l : List Nat} {N : Nat} (h : l ≠ [])
    (hall : ∀ x ∈ l, x = N) : pickMostCommon l = N :=
  hall _ (pickMostCommon_spec h).1

theorem adjustArr_length (key : String) (target : Nat) (xs : List JScalar) :
    (adjustArr key target xs).length = target := by
  unfold adjustArr
  split_ifs with h1 h2 h3
  · simp
  · simp only [List.length_append, List.length_replicate]; omega
  · simp only [List.length_take]; omega
  · omega

theorem adjustArr_of_length_eq (key : String) {target : Nat} {xs : List JScalar}
    (h : xs.length = target) : adjustArr key target xs = xs := by
  unfold adjustArr
  split_ifs with h1 h2 h3
  · have hx : xs = [] := List.length_eq_zero.mp h1
    subst hx
    simp only [List.length_nil] at h
    rw [← h]
    rfl
  · exact absurd h (by omega)
  · exact absurd h (by omega)
  · rfl

theorem adjustArr_eq_empty (key : String) (target : Nat) {xs : List JScalar}
    (h : xs.length = 0) :
    adjustArr key target xs = List.replicate target (fillerFor key) := by
  unfold adjustArr
  rw [if_pos h]

theorem adjustArr_eq_pad (key : String) {target : Nat} {xs : List JScalar}
    (h0 : xs.length ≠ 0) (h : xs.length < target) :
    adjustArr key target xs = xs ++ List.replicate (target - xs.length) (fillerFor key) := by
  unfold adjustArr
  rw [if_neg h0, if_pos h]

theorem adjustArr_eq_take (key : String) {target : Nat} {xs : List JScalar}
    (h : target < xs.length) : adjustArr key target xs = xs.take target := by
  unfold adjustArr
  rw [if_neg (by omega), if_neg (by omega), if_pos h]

theorem non_empty_lengths_nil_of_array_keys :
    ∀ {j : JObj}, array_keys j = [] → non_empty_lengths j = []
  | [], _ => rfl
  | (k, .scalar s) :: j, h => by
    have h2 : array_keys j = [] := by
      simpa [array_keys, isArr] using h
    simpa [non_empty_lengths] using non_empty_lengths_nil_of_array_keys h2
  | (k, .arr xs) :: j, h => by
    simp [array_keys, isArr] at h

theorem ensure_of_ne_nil {j : JObj} (h : non_empty_lengths j ≠ []) :
    ensure_equal_length_arrays j =
      j.map fun kv => (kv.1, adjustVal kv.1 (pickMostCommon (non_empty_lengths j)) kv.2) := by
  unfold ensure_equal_length_arrays
  rw [if_neg (fun hak => h (non_empty_lengths_nil_of_array_keys hak)), if_neg h]

theorem alookup_map_val {α β : Type} (g : String → α → β) :
    ∀ (l : List (String × α)) (k : String),
      alookup (l.map fun kv => (kv.1, g kv.1 kv.2)) k = (alookup l k).map (g k)
  | [], _ => rfl
  | (k0, v0) :: rest, k => by
    simp only [List.map_cons, alookup]
    by_cases h : k0 = k
    · subst h; simp
    · simp [h, alookup_map_val g rest k]

theorem non_empty_lengths_pos {j : JObj} {x : Nat}
    (hx : x ∈ non_empty_lengths j) : 0 < x := by
  unfold non_empty_lengths at hx
  rcases List.mem_filterMap.mp hx with ⟨⟨k, v⟩, hkv, hmap⟩
  cases v with
  | scalar s => simp at hmap
  | arr xs =>
    by_cases hlen : xs.length > 0
    · simp only [hlen, if_pos] at hmap
      injection hmap with h
      omega
    · simp [hlen] at hmap

theorem array_keys_map_adjust (j : JObj) (N : Nat) :
    array_keys (j.map fun kv => (kv.1, adjustVal kv.1 N kv.2)) = array_keys j := by
  induction j with
  | nil => rfl
  | cons kv j ih =>
    rcases kv with ⟨k, v⟩
    cases v with
    | scalar s => simpa [array_keys, isArr, adjustVal] using ih
    | arr xs => simpa [array_keys, isArr, adjustVal] using ih

theorem non_empty_lengths_map_adjust {j : JObj} {N : Nat} (hN : 0 < N) :
    non_empty_lengths (j.map fun kv => (kv.1, adjustVal kv.1 N kv.2)) =
      List.replicate (array_keys j).length N := by
  induction j with
  | nil => rfl
  | cons kv j ih =>
    rcases kv with ⟨k, v⟩
    cases v with
    | scalar s =>
      simpa [non_empty_lengths, array_keys, isArr, adjustVal] using ih
    | arr xs =>
      have hlen := adjustArr_length k N xs
      simp only [List.map_cons, non_empty_lengths, List.filterMap_cons, adjustVal] at ih ⊢
      rw [hlen]
      simp only [hN, if_pos]
      rw [ih]
      simp [array_keys, isArr, List.replicate_succ]

/-- Claim C7: reconciliation is idempotent — applying
`ensure_equal_length_arrays` to an already-reconciled object returns it
unchanged, for every parsed extraction. -/
theorem reconcile_idempotent (j : JObj) :
    ensure_equal_length_arrays (ensure_equal_length_arrays j) =
      ensure_equal_length_arrays j := by
  by_cases h1 : array_keys j = []
  · have he : ensure_equal_length_arrays j = j := by
      unfold ensure_equal_length_arrays; rw [if_pos h1]
    rw [he, he]
  · by_cases h2 : non_empty_lengths j = []
    · have he : ensure_equal_length_arrays j = j := by
        unfold ensure_equal_length_arrays; rw [if_neg h1, if_pos h2]
      rw [he, he]
    · have hNpos : 0 < pickMostCommon (non_empty_lengths j) :=
        non_empty_lengths_pos (pickMostCommon_spec h2).1
      have he := ensure_of_ne_nil h2
      have hlens : non_empty_lengths (ensure_equal_length_arrays j) =
          List.replicate (array_keys j).length (pickMostCommon (non_empty_lengths j)) := by
        rw [he]; exact non_empty_lengths_map_adjust hNpos
      have hakl : (array_keys j).length ≠ 0 :=
        fun h0 => h1 (List.length_eq_zero.mp h0)
      have hlens_ne : non_empty_lengths (ensure_equal_length_arrays j) ≠ [] := by
        rw [hlens]
        simp only [ne_eq, List.replicate_eq_nil_iff]
        exact hakl
      have hpick : pickMostCommon (non_empty_lengths (ensure_equal_length_arrays j)) =
          pickMostCommon (non_empty_lengths j) := by
        rw [hlens]
        exact pickMostCommon_of_all_eq
          (by simp only [ne_eq, List.replicate_eq_nil_iff]; exact hakl)
          (fun x hx => List.eq_of_mem_replicate hx)
      rw [ensure_of_ne_nil hlens_ne, hpick, he, List.map_map]
      apply List.map_congr_left
      intro kv _
      rcases kv with ⟨k, v⟩
      cases v with
      | scalar s => rfl
      | arr xs =>
        simp only [Function.comp_apply, adjustVal]
        rw [adjustArr_of_length_eq k (adjustArr_length k _ xs)]

/-- Claim C6, counterexample: for the parsed extraction with a single
non-empty `Product` sequence, reconciliation returns the object unchanged.
In particular the absent fields `Qty` and `Total` of the fixed field set do
NOT get a sequence of placeholder values — they remain absent, contrary to
the claim that after reconciliation every field of the fixed field set has
a sequence of length N. -/
theorem c6_counterexample :
    ensure_equal_length_arrays [("Product", JVal.arr [.s "A"])] =
        [("Product", JVal.arr [.s "A"])]
      ∧ alookup (ensure_equal_length_arrays [("Product", JVal.arr [.s "A"])]) "Qty" = none
      ∧ alookup (ensure_equal_length_arrays [("Product", JVal.arr [.s "A"])]) "Total" = none := by
  refine ⟨?_, ?_, ?_⟩ <;> decide

/-- Claim C6 as amended: after reconciliation, every field of the fixed
field set that is PRESENT with a sequence value has length N; a present but
empty field is filled with N copies of the type-appropriate placeholder
(`fillerFor`); a field absent from the raw input remains absent. -/
theorem c6_amended (j : JObj) (h : non_empty_lengths j ≠ []) (k : String)
    (hk : k ∈ (["Date", "Product", "Qty", "U.Price", "Total"] : List String)) :
    (∀ xs, alookup j k = some (JVal.arr xs) →
       ∃ ys, alookup (ensure_equal_length_arrays j) k = some (JVal.arr ys) ∧
         ys.length = pickMostCommon (non_empty_lengths j) ∧
         (xs.length = 0 →
           ys = List.replicate (pickMostCommon (non_empty_lengths j)) (fillerFor k)))
    ∧ (alookup j k = none → alookup (ensure_equal_length_arrays j) k = none) := by
  rw [ensure_of_ne_nil h,
    alookup_map_val (fun a b => adjustVal a (pickMostCommon (non_empty_lengths j)) b) j k]
  constructor
  · intro xs hxs
    rw [hxs]
    exact ⟨adjustArr k (pickMostCommon (non_empty_lengths j)) xs, rfl,
      adjustArr_length k _ xs, fun h0 => adjustArr_eq_empty k _ h0⟩
  · intro hnone
    rw [hnone]
    rfl

/-- Concrete input for the C6 witness: `Product` non-empty, `Qty` present
but empty. -/
def c6WitnessObj : JObj := [("Product", JVal.arr [.s "A"]), ("Qty", JVal.arr [])]

/-- Witness for `c6_amended` at a concrete input satisfying its
hypotheses. -/
theorem c6_amended_witness :
    (non_empty_lengths c6WitnessObj ≠ []
      ∧ "Qty" ∈ (["Date", "Product", "Qty", "U.Price", "Total"] : List String))
    ∧ ((∀ xs, alookup c6WitnessObj "Qty" = some (JVal.arr xs) →
         ∃ ys, alookup (ensure_equal_length_arrays c6WitnessObj) "Qty" = some (JVal.arr ys) ∧
           ys.length = pickMostCommon (non_empty_lengths c6WitnessObj) ∧
           (xs.length = 0 →
             ys = List.replicate (pickMostCommon (non_empty_lengths c6WitnessObj)) (fillerFor "Qty")))
       ∧ (alookup c6WitnessObj "Qty" = none →
           alookup (ensure_equal_length_arrays c6WitnessObj) "Qty" = none)) :=
  ⟨⟨by decide, by decide⟩, c6_amended c6WitnessObj (by decide) "Qty" (by decide)⟩

/-- The properties of the dominant length N claimed by C4: it is one of the
collected non-empty sequence lengths, of maximal multiplicity, and among
the lengths of maximal multiplicity it is the first-encountered one. -/
def dominantLengthProps (j : JObj) : Prop :=
  pickMostCommon (non_empty_lengths j) ∈ non_empty_lengths j
  ∧ (∀ x ∈ non_empty_lengths j,
      (non_empty_lengths j).count x ≤
        (non_empty_lengths j).count (pickMostCommon (non_empty_lengths j)))
  ∧ (∀ x ∈ non_empty_lengths j,
      (non_empty_lengths j).count (pickMostCommon (non_empty_lengths j)) =
          (non_empty_lengths j).count x →
        (non_empty_lengths j).indexOf (pickMostCommon (non_empty_lengths j)) ≤
          (non_empty_lengths j).indexOf x)

/-- The concrete input of C4's example. -/
def c4Input : JObj := [("Product", JVal.arr [.s "A", .s "B"]), ("Qty", JVal.arr [.n 1])]

/-- The reconciled output C4 expects: N = 2 and `Qty` padded to `[1, 0]`. -/
def c4Expected : JObj := [("Product", JVal.arr [.s "A", .s "B"]), ("Qty", JVal.arr [.n 1, .n 0])]

/-- Claim C4: the dominant length N is the most frequent length among the
non-empty sequence-valued fields, ties broken by the first-encountered
length; and on input with Product=["A","B"], Qty=[1] the result pads Qty
to [1, 0] (N = 2). -/
theorem c4_dominant_length (j : JObj) (h : non_empty_lengths j ≠ []) :
    dominantLengthProps j ∧ ensure_equal_length_arrays c4Input = c4Expected := by
  refine ⟨⟨(pickMostCommon_spec h).1, ?_, ?_⟩, by decide⟩
  · intro x hx
    exact le_trans (count_le_maxCount hx) (pickMostCommon_spec h).2
  · intro x hx hc
    exact pickMostCommon_first h x hx (hc ▸ (pickMostCommon_spec h).2)

/-- Witness for `c4_dominant_length` at the example input itself. -/
theorem c4_witness :
    non_empty_lengths c4Input ≠ []
      ∧ (dominantLengthProps c4Input ∧ ensure_equal_length_arrays c4Input = c4Expected) :=
  ⟨by decide, c4_dominant_length c4Input (by decide)⟩

/-- The postcondition C1 claims of reconciliation: entry count and keys are
preserved, scalar fields are untouched, and every sequence-valued field
ends up with length exactly N (the dominant length), by filling an empty
field with N fillers, right-padding a short field, truncating a long field,
and leaving a field already of length N unchanged. -/
def reconcilePost (j : JObj) : Prop :=
  (ensure_equal_length_arrays j).length = j.length
  ∧ ∀ (i : Nat) (k : String) (v : JVal), j[i]? = some (k, v) →
      (isArr v = false → (ensure_equal_length_arrays j)[i]? = some (k, v))
      ∧ ∀ xs, v = JVal.arr xs →
        ∃ ys, (ensure_equal_length_arrays j)[i]? = some (k, JVal.arr ys)
          ∧ ys.length = pickMostCommon (non_empty_lengths j)
          ∧ (xs.length = 0 →
              ys = List.replicate (pickMostCommon (non_empty_lengths j)) (fillerFor k))
          ∧ (xs.length ≠ 0 → xs.length < pickMostCommon (non_empty_lengths j) →
              ys = xs ++ List.replicate
                (pickMostCommon (non_empty_lengths j) - xs.length) (fillerFor k))
          ∧ (pickMostCommon (non_empty_lengths j) < xs.length →
              ys = xs.take (pickMostCommon (non_empty_lengths j)))
          ∧ (xs.length = pickMostCommon (non_empty_lengths j) → ys = xs)

/-- Claim C1: for every parsed extraction with at least one non-empty
sequence-valued field, after `ensure_equal_length_arrays` every
sequence-valued field has length exactly the dominant length N — empty
fields replaced by N fillers, short fields right-padded, long fields
truncated to their first N elements. -/
theorem c1_reconcile (j : JObj) (h : non_empty_lengths j ≠ []) : reconcilePost j := by
  unfold reconcilePost
  rw [ensure_of_ne_nil h]
  refine ⟨by simp, ?_⟩
  intro i k v hv
  have hmap : (j.map fun kv =>
        (kv.1, adjustVal kv.1 (pickMostCommon (non_empty_lengths j)) kv.2))[i]?
      = some (k, adjustVal k (pickMostCommon (non_empty_lengths j)) v) := by
    rw [List.getElem?_map, hv]
    rfl
  refine ⟨?_, ?_⟩
  · intro hscal
    cases v with
    | scalar s => rw [hmap]; rfl
    | arr xs => simp [isArr] at hscal
  · intro xs hxs
    subst hxs
    exact ⟨adjustArr k (pickMostCommon (non_empty_lengths j)) xs,
      by rw [hmap]; rfl,
      adjustArr_length _ _ _,
      fun h0 => adjustArr_eq_empty _ _ h0,
      fun h0 hlt => adjustArr_eq_pad _ h0 hlt,
      fun hgt => adjustArr_eq_take _ hgt,
      fun heq => adjustArr_of_length_eq _ heq⟩

/-- Concrete input for the C1 witness: a scalar field plus sequence fields
of lengths 2, 1, 3 and 0, so that padding, truncation and filling all
occur (N = 2). -/
def c1WitnessObj : JObj :=
  [("Product", JVal.arr [.s "A", .s "B"]), ("Qty", JVal.arr [.n 1]),
   ("Note", JVal.scalar (.s "x")), ("U.Price", JVal.arr [.n 1, .n 2, .n 3]),
   ("Total", JVal.arr [])]

/-- Witness for `c1_reconcile` at a concrete input satisfying its
hypothesis. -/
theorem c1_witness : non_empty_lengths c1WitnessObj ≠ [] ∧ reconcilePost c1WitnessObj :=
  ⟨by decide, c1_reconcile c1WitnessObj (by decide)⟩

/-- The keep-predicate exactly as claim C2 states it: the trimmed `Product`
string is non-empty, OR `Total` is a non-null number strictly greater
than 0. -/
def keepSpec (p t : Cell) : Bool :=
  (match p with
   | Cell.s v => !(pyStrip v == "")
   | _ => false)
  || (match t with
     | Cell.n q => decide (0 < q)
     | _ => false)

theorem keepCell_eq_keepSpec {p t : Cell}
    (hp : (∃ v, p = Cell.s v) ∨ p = Cell.nan)
    (ht : (∃ q, t = Cell.n q) ∨ t = Cell.nan) :
    keepCell p t = keepSpec p t := by
  rcases hp with ⟨v, rfl⟩ | rfl <;> rcases ht with ⟨q, rfl⟩ | rfl <;>
    simp [keepCell, keepSpec, stripNe, notna, gtZero]

theorem rowMask_eq_spec :
    ∀ (ps ts : List Cell),
      (∀ c ∈ ps, (∃ v, c = Cell.s v) ∨ c = Cell.nan) →
      (∀ c ∈ ts, (∃ q, c = Cell.n q) ∨ c = Cell.nan) →
      rowMask ps ts = List.zipWith keepSpec ps ts
  | [], _, _, _ => by simp [rowMask]
  | _ :: _, [], _, _ => by simp [rowMask]
  | p :: ps, t :: ts, hp, ht => by
    have h1 := keepCell_eq_keepSpec (hp p (List.mem_cons_self p ps)) (ht t (List.mem_cons_self t ts))
    have h2 := rowMask_eq_spec ps ts
      (fun c hc => hp c (List.mem_cons_of_mem _ hc))
      (fun c hc => ht c (List.mem_cons_of_mem _ hc))
    unfold rowMask at h2 ⊢
    simp only [List.zipWith_cons_cons, h1, h2]

/-- The input frame of C2's example: rows (Product "  ", Total 0) and
(Product "", Total 5). -/
def c2ExampleFrame : Frame := [("Product", [.s "  ", .s ""]), ("Total", [.n 0, .n 5])]

/-- The cleaned frame C2 expects: the first row dropped, the second kept. -/
def c2ExampleCleaned : Frame := [("Product", [Cell.s ""]), ("Total", [Cell.n 5])]

/-- Claim C2: `clean_dataframe` keeps a row exactly when its trimmed
`Product` is non-empty OR its `Total` is non-null and strictly positive
(over frames whose `Product` cells are strings-or-missing and whose `Total`
cells are numbers-or-missing, the shapes the pipeline produces); in
particular the row (Product "  ", Total 0) is dropped and the row
(Product "", Total 5) is kept. -/
theorem c2_clean (f : Frame) (ps ts : List Cell)
    (hp : alookup f "Product" = some ps) (ht : alookup f "Total" = some ts)
    (hps : ∀ c ∈ ps, (∃ v, c = Cell.s v) ∨ c = Cell.nan)
    (hts : ∀ c ∈ ts, (∃ q, c = Cell.n q) ∨ c = Cell.nan) :
    clean_dataframe f =
        .ok (f.map fun kv => (kv.1, applyMask kv.2 (List.zipWith keepSpec ps ts)))
      ∧ clean_dataframe c2ExampleFrame = .ok c2ExampleCleaned := by
  constructor
  · have hcp : colGet f "Product" = .ok ps := by unfold colGet; rw [hp]
    have hct : colGet f "Total" = .ok ts := by unfold colGet; rw [ht]
    unfold clean_dataframe
    rw [hcp, hct]
    show Except.ok (f.map fun kv => (kv.1, applyMask kv.2 (rowMask ps ts))) = _
    rw [rowMask_eq_spec ps ts hps hts]
  · rfl

/-- Witness for `c2_clean` at the example frame itself. -/
theorem c2_witness :
    (alookup c2ExampleFrame "Product" = some [Cell.s "  ", Cell.s ""]
      ∧ alookup c2ExampleFrame "Total" = some [Cell.n 0, Cell.n 5]
      ∧ (∀ c ∈ [Cell.s "  ", Cell.s ""], (∃ v, c = Cell.s v) ∨ c = Cell.nan)
      ∧ (∀ c ∈ [Cell.n 0, Cell.n 5], (∃ q, c = Cell.n q) ∨ c = Cell.nan))
    ∧ (clean_dataframe c2ExampleFrame =
          .ok (c2ExampleFrame.map fun kv =>
            (kv.1, applyMask kv.2
              (List.zipWith keepSpec [Cell.s "  ", Cell.s ""] [Cell.n 0, Cell.n 5])))
        ∧ clean_dataframe c2ExampleFrame = .ok c2ExampleCleaned) := by
  refine ⟨⟨rfl, rfl, ?_, ?_⟩, ?_⟩
  · intro c hc
    simp only [List.mem_cons, List.not_mem_nil, or_false] at hc
    rcases hc with rfl | rfl
    · exact Or.inl ⟨"  ", rfl⟩
    · exact Or.inl ⟨"", rfl⟩
  · intro c hc
    simp only [List.mem_cons, List.not_mem_nil, or_false] at hc
    rcases hc with rfl | rfl
    · exact Or.inl ⟨0, rfl⟩
    · exact Or.inl ⟨5, rfl⟩
  · refine c2_clean c2ExampleFrame [Cell.s "  ", Cell.s ""] [Cell.n 0, Cell.n 5] rfl rfl ?_ ?_
    · intro c hc
      simp only [List.mem_cons, List.not_mem_nil, or_false] at hc
      rcases hc with rfl | rfl
      · exact Or.inl ⟨"  ", rfl⟩
      · exact Or.inl ⟨"", rfl⟩
    · intro c hc
      simp only [List.mem_cons, List.not_mem_nil, or_false] at hc
      rcases hc with rfl | rfl
      · exact Or.inl ⟨0, rfl⟩
      · exact Or.inl ⟨5, rfl⟩

theorem findFirst_none {p : Char → Bool} :
    ∀ {cs : List Char}, findFirst p cs = none →
      ∀ i < cs.length, p (cs.getD i ' ') = false := by
  intro cs
  induction cs with
  | nil => intro h i hi; simp at hi
  | cons c cs ih =>
    intro h i hi
    unfold findFirst at h
    by_cases hc : p c
    · rw [if_pos hc] at h; cases h
    · rw [if_neg hc] at h
      cases i with
      | zero => simpa using hc
      | succ i2 =>
        have h0 : findFirst p cs = none := by
          rcases hfc : findFirst p cs with _ | v
          · rfl
          · rw [hfc] at h; simp at h
        simp only [List.getD_cons_succ]
        exact ih h0 i2 (by simpa using hi)

theorem findFirst_some {p : Char → Bool} :
    ∀ {cs : List Char} {i : Nat}, findFirst p cs = some i →
      i < cs.length ∧ p (cs.getD i ' ') = true ∧ ∀ i2 < i, p (cs.getD i2 ' ') = false := by
  intro cs
  induction cs with
  | nil => intro i h; simp [findFirst] at h
  | cons c cs ih =>
    intro i h
    unfold findFirst at h
    by_cases hc : p c
    · rw [if_pos hc] at h
      injection h with h
      subst h
      exact ⟨by simp, by simpa using hc, fun i2 hi2 => absurd hi2 (Nat.not_lt_zero _)⟩
    · rw [if_neg hc] at h
      rcases Option.map_eq_some'.mp h with ⟨i0, h0, rfl⟩
      rcases ih h0 with ⟨h1, h2, h3⟩
      refine ⟨by simpa using Nat.succ_lt_succ h1, by simpa using h2, ?_⟩
      intro i2 hi2
      cases i2 with
      | zero => simpa using hc
      | succ i3 =>
        simp only [List.getD_cons_succ]
        exact h3 i3 (by omega)

theorem findLast_none {p : Char → Bool} :
    ∀ {cs : List Char}, findLast p cs = none →
      ∀ i < cs.length, p (cs.getD i ' ') = false := by
  intro cs
  induction cs with
  | nil => intro h i hi; simp at hi
  | cons c cs ih =>
    intro h i hi
    unfold findLast at h
    rcases hfc : findLast p cs with _ | k
    · rw [hfc] at h
      by_cases hc : p c
      · rw [if_pos hc] at h; cases h
      · cases i with
        | zero => simpa using hc
        | succ i2 =>
          simp only [List.getD_cons_succ]
          exact ih hfc i2 (by simpa using hi)
    · rw [hfc] at h; cases h

theorem findLast_some {p : Char → Bool} :
    ∀ {cs : List Char} {j : Nat}, findLast p cs = some j →
      j < cs.length ∧ p (cs.getD j ' ') = true
        ∧ ∀ j2, j < j2 → j2 < cs.length → p (cs.getD j2 ' ') = false := by
  intro cs
  induction cs with
  | nil => intro j h; simp [findLast] at h
  | cons c cs ih =>
    intro j h
    unfold findLast at h
    rcases hfc : findLast p cs with _ | k
    · rw [hfc] at h
      by_cases hc : p c
      · rw [if_pos hc] at h
        injection h with h
        subst h
        refine ⟨by simp, by simpa using hc, ?_⟩
        intro j2 hj2 hlen
        cases j2 with
        | zero => omega
        | succ j3 =>
          simp only [List.getD_cons_succ]
          exact findLast_none hfc j3 (by simpa using hlen)
      · rw [if_neg hc] at h; cases h
    · rw [hfc] at h
      injection h with h
      subst h
      rcases ih hfc with ⟨h1, h2, h3⟩
      refine ⟨by simpa using Nat.succ_lt_succ h1, by simpa using h2, ?_⟩
      intro j2 hj2 hlen
      cases j2 with
      | zero => omega
      | succ j3 =>
        simp only [List.getD_cons_succ]
        exact h3 j3 (by omega) (by simpa using hlen)

/-- What claim C3 states of the span search: when it fails there is no
opening brace followed by a closing brace anywhere in the text, and when it
succeeds the span runs from the first opening brace of the text to the last
closing brace. -/
def spanSpec (text : List Char) : Prop :=
  (braceSpan text = none →
    ¬ ∃ i j : Nat, i < j ∧ j < text.length
        ∧ text.getD i ' ' = '{' ∧ text.getD j ' ' = '}')
  ∧ ∀ sub, braceSpan text = some sub →
      ∃ i j : Nat, i < j ∧ j < text.length
        ∧ text.getD i ' ' = '{' ∧ (∀ i2 < i, text.getD i2 ' ' ≠ '{')
        ∧ text.getD j ' ' = '}' ∧ (∀ j2, j < j2 → j2 < text.length → text.getD j2 ' ' ≠ '}')
        ∧ sub = (text.drop i).take (j - i + 1)

theorem braceSpan_eq_some {cs : List Char} {i0 j0 : Nat}
    (hf : findFirst (fun c => c == '{') cs = some i0)
    (hl : findLast (fun c => c == '}') cs = some j0) (hlt : i0 < j0) :
    braceSpan cs = some ((cs.drop i0).take (j0 - i0 + 1)) := by
  unfold braceSpan
  rw [hf, hl]
  exact if_pos hlt

theorem braceSpan_eq_none_of_ge {cs : List Char} {i0 j0 : Nat}
    (hf : findFirst (fun c => c == '{') cs = some i0)
    (hl : findLast (fun c => c == '}') cs = some j0) (hlt : ¬ i0 < j0) :
    braceSpan cs = none := by
  unfold braceSpan
  rw [hf, hl]
  exact if_neg hlt

theorem spanSpec_holds (text : List Char) : spanSpec text := by
  constructor
  · rintro hnone ⟨i, j, hij, hjlen, hi, hj⟩
    rcases hf : findFirst (fun c => c == '{') text with _ | i0
    · have h2 := findFirst_none hf i (by omega)
      rw [hi] at h2
      simp at h2
    · rcases hl : findLast (fun c => c == '}') text with _ | j0
      · have h2 := findLast_none hl j hjlen
        rw [hj] at h2
        simp at h2
      · by_cases hlt : i0 < j0
        · rw [braceSpan_eq_some hf hl hlt] at hnone
          cases hnone
        · rcases findFirst_some hf with ⟨_, _, hmin⟩
          rcases findLast_some hl with ⟨_, _, hmax⟩
          have hi0 : i0 ≤ i := by
            by_contra hcon
            have h2 := hmin i (by omega)
            rw [hi] at h2
            simp at h2
          have hj0 : j ≤ j0 := by
            by_contra hcon
            have h2 := hmax j (by omega) hjlen
            rw [hj] at h2
            simp at h2
          omega
  · intro sub hsub
    rcases hf : findFirst (fun c => c == '{') text with _ | i0
    · have : braceSpan text = none := by
        unfold braceSpan
        rw [hf]
      rw [this] at hsub
      cases hsub
    · rcases hl : findLast (fun c => c == '}') text with _ | j0
      · have : braceSpan text = none := by
          unfold braceSpan
          rw [hf, hl]
        rw [this] at hsub
        cases hsub
      · by_cases hlt : i0 < j0
        · rw [braceSpan_eq_some hf hl hlt] at hsub
          injection hsub with hsub
          rcases findFirst_some hf with ⟨hi0len, hpi0, hmin⟩
          rcases findLast_some hl with ⟨hj0len, hpj0, hmax⟩
          refine ⟨i0, j0, hlt, hj0len, by simpa using hpi0, ?_, by simpa using hpj0, ?_, hsub.symm⟩
          · intro i2 hi2
            have h2 := hmin i2 hi2
            intro hcon
            rw [hcon] at h2
            simp at h2
          · intro j2 hj2 hj2len
            have h2 := hmax j2 hj2 hj2len
            intro hcon
            rw [hcon] at h2
            simp at h2
        · rw [braceSpan_eq_none_of_ge hf hl hlt] at hsub
          cases hsub

/-- Claim C3: `extract_json_from_response` takes the substring from the
first opening brace to the last closing brace and parses it; it fails when
no such substring exists (`NoJsonFound`), when the substring does not parse
(`InvalidJson`), or when the parsed object lacks a `Product` key or that
key's value is empty/falsy (`MissingProductField`); on success it returns
the parsed mapping unchanged.  Parsing itself (`json.loads`) is an
external call, quantified here as `parse`. -/
theorem c3_extract (parse : List Char → Option JObj) (text : List Char) :
    spanSpec text
    ∧ (extract_json_from_response parse text = none ↔
        braceSpan text = none
        ∨ ∃ sub, braceSpan text = some sub ∧
            (parse sub = none
             ∨ ∃ jd, parse sub = some jd ∧
                 (alookup jd "Product" = none
                  ∨ ∃ v, alookup jd "Product" = some v ∧ truthy v = false)))
    ∧ ∀ sub jd v, braceSpan text = some sub → parse sub = some jd →
        alookup jd "Product" = some v → truthy v = true →
        extract_json_from_response parse text = some jd := by
  refine ⟨spanSpec_holds text, ?_, ?_⟩
  · rcases hs : braceSpan text with _ | sub
    · simp [extract_json_from_response, hs]
    · rcases hp : parse sub with _ | jd
      · simp [extract_json_from_response, hs, hp]
      · rcases ha : alookup jd "Product" with _ | v
        · simp [extract_json_from_response, hs, hp, ha]
        · by_cases ht : truthy v
          · simp [extract_json_from_response, hs, hp, ha, ht]
          · simp only [Bool.not_eq_true] at ht
            simp [extract_json_from_response, hs, hp, ha, ht]
  · intro sub jd v hs hp ha ht
    simp [extract_json_from_response, hs, hp, ha, ht]

theorem optStrLe_trans : ∀ {a b c : Option String},
    optStrLe a b = true → optStrLe b c = true → optStrLe a c = true := by
  intro a b c h1 h2
  cases a <;> cases b <;> cases c <;> simp_all [optStrLe]
  exact le_trans h1 h2

theorem optStrLe_total : ∀ (a b : Option String),
    optStrLe a b = true ∨ optStrLe b a = true := by
  intro a b
  cases a <;> cases b <;> simp [optStrLe]
  exact le_total _ _

theorem optStrLe_refl (a : Option String) : optStrLe a a = true := by
  cases a <;> simp [optStrLe]

theorem rowLe_trans : ∀ (a b c : Row),
    rowLe a b = true → rowLe b c = true → rowLe a c = true := by
  intro a b c h1 h2
  simp only [rowLe, Bool.or_eq_true, Bool.and_eq_true, decide_eq_true_eq, beq_iff_eq] at *
  rcases h1 with h1 | ⟨h1e, h1p⟩ <;> rcases h2 with h2 | ⟨h2e, h2p⟩
  · exact Or.inl (lt_trans h1 h2)
  · exact Or.inl (h2e ▸ h1)
  · exact Or.inl (h1e ▸ h2)
  · exact Or.inr ⟨h1e.trans h2e, optStrLe_trans h1p h2p⟩

theorem rowLe_total : ∀ (a b : Row), rowLe a b = true ∨ rowLe b a = true := by
  intro a b
  simp only [rowLe, Bool.or_eq_true, Bool.and_eq_true, decide_eq_true_eq, beq_iff_eq]
  rcases lt_trichotomy a.date b.date with h | h | h
  · exact Or.inl (Or.inl h)
  · rcases optStrLe_total a.product b.product with hp | hp
    · exact Or.inl (Or.inr ⟨h, hp⟩)
    · exact Or.inr (Or.inr ⟨h.symm, hp⟩)
  · exact Or.inr (Or.inl h)

theorem rowLe_total_bool : ∀ (a b : Row), (rowLe a b || rowLe b a) = true := by
  intro a b
  rcases rowLe_total a b with h | h <;> simp [h]

theorem rowLe_of_keys_eq {a b : Row} (hd : a.date = b.date)
    (hp : a.product = b.product) : rowLe a b = true := by
  simp only [rowLe, Bool.or_eq_true, Bool.and_eq_true, decide_eq_true_eq, beq_iff_eq]
  exact Or.inr ⟨hd, hp ▸ optStrLe_refl a.product⟩

/-- Claim C5: the combined batch result is the cleaned concatenation sorted
by (Date, Product) ascending under string comparison; the key order is
total, and the sort is stable — the rows carrying any fixed (Date, Product)
key appear in the output in exactly their concatenation order. -/
theorem c5_sort (dfs : List (List Row)) :
    (combineRows dfs).Perm (cleanRows dfs.flatten)
    ∧ (combineRows dfs).Pairwise (fun a b => rowLe a b = true)
    ∧ (∀ a b : Row, rowLe a b = true ∨ rowLe b a = true)
    ∧ ∀ d p, (combineRows dfs).filter (fun r => r.date == d && r.product == p)
        = (cleanRows dfs.flatten).filter (fun r => r.date == d && r.product == p) := by
  unfold combineRows
  refine ⟨List.mergeSort_perm _ _,
    List.sorted_mergeSort rowLe_trans rowLe_total_bool _, rowLe_total, ?_⟩
  intro d p
  have hfilter_pair : ((cleanRows dfs.flatten).filter
      (fun r => r.date == d && r.product == p)).Pairwise (fun a b => rowLe a b = true) := by
    apply List.pairwise_of_forall_mem_list
    intro a ha b hb
    have hpa := (List.mem_filter.mp ha).2
    have hpb := (List.mem_filter.mp hb).2
    simp only [Bool.and_eq_true, beq_iff_eq] at hpa hpb
    exact rowLe_of_keys_eq (hpa.1.trans hpb.1.symm) (hpa.2.trans hpb.2.symm)
  have hsub2 : List.Sublist
      ((cleanRows dfs.flatten).filter (fun r => r.date == d && r.product == p))
      ((cleanRows dfs.flatten).mergeSort rowLe) :=
    List.sublist_mergeSort rowLe_trans rowLe_total_bool hfilter_pair
      (List.filter_sublist _)
  have hidem : ((cleanRows dfs.flatten).filter
        (fun r => r.date == d && r.product == p)).filter
        (fun r => r.date == d && r.product == p) =
      (cleanRows dfs.flatten).filter (fun r => r.date == d && r.product == p) := by
    rw [List.filter_eq_self]
    intro a ha
    exact (List.mem_filter.mp ha).2
  have hsub3 : List.Sublist
      ((cleanRows dfs.flatten).filter (fun r => r.date == d && r.product == p))
      (((cleanRows dfs.flatten).mergeSort rowLe).filter
        (fun r => r.date == d && r.product == p)) := by
    rw [← hidem]
    exact hsub2.filter _
  have hperm : (((cleanRows dfs.flatten).mergeSort rowLe).filter
        (fun r => r.date == d && r.product == p)).Perm
      ((cleanRows dfs.flatten).filter (fun r => r.date == d && r.product == p)) :=
    (List.mergeSort_perm (cleanRows dfs.flatten) rowLe).filter _
  exact (hsub3.eq_of_length hperm.length_eq.symm).symm

theorem mkFrame_ok {j : JObj} {f : Frame} (h : mkFrame j = .ok f) :
    ∃ len, f = j.map fun kv => (kv.1, colOf len kv.2) := by
  unfold mkFrame at h
  split at h
  · cases h
  · split at h
    · injection h with h
      exact ⟨_, h.symm⟩
    · cases h

theorem alookup_replace_ne {f : Frame} {k k2 : String} {v : List Cell} (h : k2 ≠ k) :
    alookup (f.map fun kv => if kv.1 = k then (k, v) else kv) k2 = alookup f k2 := by
  induction f with
  | nil => rfl
  | cons kv f ih =>
    rcases kv with ⟨k0, v0⟩
    simp only [List.map_cons]
    by_cases h0 : k0 = k
    · subst h0
      rw [if_pos rfl]
      simp only [alookup]
      rw [if_neg (fun hc => h hc.symm), if_neg (fun hc => h hc.symm)]
      exact ih
    · rw [if_neg h0]
      simp only [alookup]
      by_cases hk2 : k0 = k2
      · rw [if_pos hk2, if_pos hk2]
      · rw [if_neg hk2, if_neg hk2]
        exact ih

theorem alookup_append_singleton_ne {f : Frame} {k k2 : String} {v : List Cell}
    (h : k2 ≠ k) : alookup (f ++ [(k, v)]) k2 = alookup f k2 := by
  induction f with
  | nil =>
    show alookup [(k, v)] k2 = none
    simp only [alookup]
    rw [if_neg (fun hc => h hc.symm)]
  | cons kv f ih =>
    rcases kv with ⟨k0, v0⟩
    simp only [List.cons_append, alookup]
    by_cases hk2 : k0 = k2
    · rw [if_pos hk2, if_pos hk2]
    · rw [if_neg hk2, if_neg hk2]
      exact ih

theorem alookup_setCol_ne {f : Frame} {k k2 : String} {v : List Cell} (h : k2 ≠ k) :
    alookup (setCol f k v) k2 = alookup f k2 := by
  unfold setCol
  split_ifs with hm
  · exact alookup_replace_ne h
  · exact alookup_append_singleton_ne h

theorem alookup_replace_self {f : Frame} {k : String} {v : List Cell}
    (hm : k ∈ f.map Prod.fst) :
    alookup (f.map fun kv => if kv.1 = k then (k, v) else kv) k = some v := by
  induction f with
  | nil => simp at hm
  | cons kv f ih =>
    rcases kv with ⟨k0, v0⟩
    simp only [List.map_cons]
    by_cases h0 : k0 = k
    · subst h0
      rw [if_pos rfl]
      simp [alookup]
    · rw [if_neg h0]
      simp only [alookup]
      rw [if_neg h0]
      apply ih
      simp only [List.map_cons, List.mem_cons] at hm
      rcases hm with h | h
      · exact absurd h.symm h0
      · exact h

theorem alookup_append_singleton_self {f : Frame} {k : String} {v : List Cell}
    (hm : k ∉ f.map Prod.fst) : alookup (f ++ [(k, v)]) k = some v := by
  induction f with
  | nil => simp [alookup]
  | cons kv f ih =>
    rcases kv with ⟨k0, v0⟩
    simp only [List.map_cons, List.mem_cons] at hm
    push_neg at hm
    simp only [List.cons_append, alookup]
    rw [if_neg (fun hc => hm.1 hc.symm)]
    exact ih (by simpa using hm.2)

theorem alookup_setCol_self (f : Frame) (k : String) (v : List Cell) :
    alookup (setCol f k v) k = some v := by
  unfold setCol
  split_ifs with hm
  · exact alookup_replace_self hm
  · exact alookup_append_singleton_self hm

theorem alookup_ensure_none {j : JObj} {k : String} (h : alookup j k = none) :
    alookup (ensure_equal_length_arrays j) k = none := by
  by_cases h2 : non_empty_lengths j = []
  · unfold ensure_equal_length_arrays
    by_cases h1 : array_keys j = []
    · rw [if_pos h1]; exact h
    · rw [if_neg h1, if_pos h2]; exact h
  · rw [ensure_of_ne_nil h2,
      alookup_map_val (fun a b => adjustVal a (pickMostCommon (non_empty_lengths j)) b) j k,
      h]
    rfl

theorem alookup_coerce (f : Frame) (k : String) :
    alookup (coerceNumericCols f) k =
      (alookup f k).map (fun col => if k ∈ numericCols then col.map coerceCell else col) := by
  unfold coerceNumericCols
  exact alookup_map_val (fun a b => if a ∈ numericCols then b.map coerceCell else b) f k

/-- Claim C9: a parsed extraction with a non-empty `Product` sequence but
no `Total` key yields zero rows: `clean_dataframe` unconditionally accesses
the `Total` column, the `KeyError` propagates to the per-document handler,
and the document degrades to an empty result. -/
theorem c9_missing_total (j : JObj) (src : String) (ps : List JScalar)
    (h1 : alookup j "Product" = some (JVal.arr ps)) (h2 : ps ≠ [])
    (h3 : alookup j "Total" = none) :
    processDoc j src = [] := by
  unfold processDoc
  suffices hp : ∃ e, pipeline j src = .error e by
    rcases hp with ⟨e, he⟩
    rw [he]
  unfold pipeline
  rcases hmk : mkFrame (ensure_equal_length_arrays j) with e | f0
  · exact ⟨e, rfl⟩
  · have hT0 : alookup (ensure_equal_length_arrays j) "Total" = none :=
      alookup_ensure_none h3
    rcases mkFrame_ok hmk with ⟨len, hf0⟩
    have hTf0 : alookup f0 "Total" = none := by
      rw [hf0, alookup_map_val (fun a b => colOf len b)
        (ensure_equal_length_arrays j) "Total", hT0]
      rfl
    have hTf1 : alookup (coerceNumericCols f0) "Total" = none := by
      rw [alookup_coerce, hTf0]
      rfl
    have hTf2 : alookup (addMarkup (coerceNumericCols f0)) "Total" = none := by
      unfold addMarkup
      rcases hup : alookup (coerceNumericCols f0) "U.Price" with _ | up
      · exact hTf1
      · rw [alookup_setCol_ne (by decide)]
        exact hTf1
    have hTf3 : alookup (addSource (addMarkup (coerceNumericCols f0)) src) "Total" = none := by
      unfold addSource
      rw [alookup_setCol_ne (by decide)]
      exact hTf2
    have hclean : ∃ e, clean_dataframe (addSource (addMarkup (coerceNumericCols f0)) src)
        = .error e := by
      unfold clean_dataframe
      rcases hcp : colGet (addSource (addMarkup (coerceNumericCols f0)) src) "Product"
          with e | cp
      · exact ⟨e, rfl⟩
      · have hct : colGet (addSource (addMarkup (coerceNumericCols f0)) src) "Total"
            = .error "KeyError" := by
          unfold colGet
          rw [hTf3]
        exact ⟨"KeyError", by rw [hct]; rfl⟩
    rcases hclean with ⟨e, he⟩
    refine ⟨e, ?_⟩
    show clean_dataframe (addSource (addMarkup (coerceNumericCols f0)) src) = .error e
    exact he

/-- Concrete input for the C9 witness: non-empty `Product`, no `Total`. -/
def c9WitnessObj : JObj := [("Product", JVal.arr [.s "A"]), ("Qty", JVal.arr [.n 1])]

/-- Witness for `c9_missing_total` at a concrete input satisfying its
hypotheses. -/
theorem c9_witness :
    (alookup c9WitnessObj "Product" = some (JVal.arr [.s "A"])
      ∧ ([JScalar.s "A"] : List JScalar) ≠ []
      ∧ alookup c9WitnessObj "Total" = none)
    ∧ processDoc c9WitnessObj "inv.pdf" = [] :=
  ⟨⟨rfl, by decide, rfl⟩,
    c9_missing_total c9WitnessObj "inv.pdf" [JScalar.s "A"] rfl (by decide) rfl⟩

theorem colGet_ok {f : Frame} {k : String} {v : List Cell} :
    colGet f k = .ok v ↔ alookup f k = some v := by
  unfold colGet
  rcases h : alookup f k with _ | c
  · constructor
    · intro hc; exact Except.noConfusion hc
    · intro hc; exact Option.noConfusion hc
  · constructor
    · intro hc; injection hc with hc; rw [hc]
    · intro hc; injection hc with hc; rw [hc]

theorem coerceCell_num_or_nan (c : Cell) :
    (∃ q, coerceCell c = Cell.n q) ∨ coerceCell c = Cell.nan := by
  cases c with
  | n q => exact Or.inl ⟨q, rfl⟩
  | b v => exact Or.inl ⟨if v then 1 else 0, rfl⟩
  | s v =>
    rcases hq : parseDecimal v with _ | q
    · refine Or.inr ?_
      show (match parseDecimal v with | some q => Cell.n q | none => Cell.nan) = Cell.nan
      rw [hq]
    · refine Or.inl ⟨q, ?_⟩
      show (match parseDecimal v with | some q => Cell.n q | none => Cell.nan) = Cell.n q
      rw [hq]
  | nan => exact Or.inr rfl

theorem clean_ok {f g : Frame} (h : clean_dataframe f = .ok g) :
    ∃ ps ts, colGet f "Product" = .ok ps ∧ colGet f "Total" = .ok ts ∧
      g = f.map fun kv => (kv.1, applyMask kv.2 (rowMask ps ts)) := by
  unfold clean_dataframe at h
  rcases hp : colGet f "Product" with e | ps
  · rw [hp] at h
    exact Except.noConfusion (show Except.error e = Except.ok g from h)
  · rw [hp] at h
    rcases ht : colGet f "Total" with e | ts
    · rw [ht] at h
      exact Except.noConfusion (show Except.error e = Except.ok g from h)
    · rw [ht] at h
      have h2 : Except.ok (f.map fun kv => (kv.1, applyMask kv.2 (rowMask ps ts)))
          = Except.ok g := h
      injection h2 with h2
      exact ⟨ps, ts, rfl, rfl, h2.symm⟩

theorem pipeline_ok {j : JObj} {src : String} {F : Frame} (h : pipeline j src = .ok F) :
    ∃ f0, mkFrame (ensure_equal_length_arrays j) = .ok f0 ∧
      clean_dataframe (addSource (addMarkup (coerceNumericCols f0)) src) = .ok F := by
  unfold pipeline at h
  rcases hmk : mkFrame (ensure_equal_length_arrays j) with e | f0
  · rw [hmk] at h
    exact Except.noConfusion (show Except.error e = Except.ok F from h)
  · rw [hmk] at h
    exact ⟨f0, rfl, h⟩

theorem addMarkup_cols {f : Frame} {upcol : List Cell}
    (h : alookup f "U.Price" = some upcol) :
    alookup (addMarkup f) "U.Price" = some upcol ∧
      alookup (addMarkup f) "Marked_Up_Price" = some (upcol.map mul125) := by
  unfold addMarkup
  rw [h]
  show alookup (setCol f "Marked_Up_Price" (upcol.map mul125)) "U.Price" = some upcol ∧
    alookup (setCol f "Marked_Up_Price" (upcol.map mul125)) "Marked_Up_Price"
      = some (upcol.map mul125)
  constructor
  · rw [alookup_setCol_ne (by decide)]
    exact h
  · exact alookup_setCol_self _ _ _

theorem forall₂_map_self {α β : Type} {R : α → β → Prop} {g : α → β} :
    ∀ {l : List α}, (∀ c ∈ l, R c (g c)) → List.Forall₂ R l (l.map g)
  | [], _ => List.Forall₂.nil
  | c :: l, h => List.Forall₂.cons (h c (List.mem_cons_self c l))
      (forall₂_map_self fun x hx => h x (List.mem_cons_of_mem _ hx))

theorem forall₂_applyMask {α β : Type} {R : α → β → Prop} {l1 : List α} {l2 : List β}
    (h : List.Forall₂ R l1 l2) :
    ∀ (m : List Bool), List.Forall₂ R (applyMask l1 m) (applyMask l2 m) := by
  induction h with
  | nil => intro m; cases m <;> exact List.Forall₂.nil
  | cons hab _ ih =>
    intro m
    cases m with
    | nil => exact List.Forall₂.nil
    | cons b ms =>
      cases b with
      | false =>
        show List.Forall₂ R (applyMask _ ms) (applyMask _ ms)
        exact ih ms
      | true =>
        show List.Forall₂ R (_ :: applyMask _ ms) (_ :: applyMask _ ms)
        exact List.Forall₂.cons hab (ih ms)

/-- Claim C8: in every per-document output frame, the `Marked_Up_Price`
column equals the `U.Price` column multiplied by 1.25 cell-wise: a present
(numeric, post-coercion) price yields exactly price x 1.25, and a missing
price yields a missing markup. -/
theorem c8_markup (j : JObj) (src : String) (up mc : List Cell)
    (hu : colGet (processDoc j src) "U.Price" = .ok up)
    (hm : colGet (processDoc j src) "Marked_Up_Price" = .ok mc) :
    List.Forall₂ (fun a b => (∃ q, a = Cell.n q ∧ b = Cell.n (q * (5 / 4)))
      ∨ (a = Cell.nan ∧ b = Cell.nan)) up mc := by
  rcases hpl : pipeline j src with e | F
  · have hPD : processDoc j src = [] := by unfold processDoc; rw [hpl]
    rw [hPD] at hu
    exact Except.noConfusion (show Except.error "KeyError" = Except.ok up from hu)
  · have hPD : processDoc j src = F := by unfold processDoc; rw [hpl]
    rw [hPD] at hu hm
    rcases pipeline_ok hpl with ⟨f0, _, hcl⟩
    rcases clean_ok hcl with ⟨cps, cts, _, _, hF⟩
    have hu2 := colGet_ok.mp hu
    have hm2 := colGet_ok.mp hm
    have hFk : ∀ k, alookup F k
        = (alookup (addSource (addMarkup (coerceNumericCols f0)) src) k).map
          (fun col => applyMask col (rowMask cps cts)) := by
      intro k
      rw [hF]
      exact alookup_map_val (fun a b => applyMask b (rowMask cps cts)) _ k
    have hu4 : (alookup (addSource (addMarkup (coerceNumericCols f0)) src) "U.Price").map
        (fun col => applyMask col (rowMask cps cts)) = some up := by
      rw [← hFk]; exact hu2
    have hm4 : (alookup (addSource (addMarkup (coerceNumericCols f0)) src)
          "Marked_Up_Price").map
        (fun col => applyMask col (rowMask cps cts)) = some mc := by
      rw [← hFk]; exact hm2
    rcases Option.map_eq_some'.mp hu4 with ⟨upc, hupc, hup_eq⟩
    rcases Option.map_eq_some'.mp hm4 with ⟨mcc, hmcc, hmc_eq⟩
    unfold addSource at hupc hmcc
    rw [alookup_setCol_ne (by decide)] at hupc hmcc
    rcases hf1up : alookup (coerceNumericCols f0) "U.Price" with _ | upcol
    · have hid : addMarkup (coerceNumericCols f0) = coerceNumericCols f0 := by
        unfold addMarkup; rw [hf1up]
      rw [hid, hf1up] at hupc
      exact Option.noConfusion hupc
    · rcases addMarkup_cols hf1up with ⟨hA, hB⟩
      rw [hA] at hupc
      injection hupc with hupc
      rw [hB] at hmcc
      injection hmcc with hmcc
      have hcells : ∀ c ∈ upcol, (∃ q, c = Cell.n q) ∨ c = Cell.nan := by
        have hco := alookup_coerce f0 "U.Price"
        rw [hf1up] at hco
        rcases Option.map_eq_some'.mp hco.symm with ⟨col0, _, hcol0eq⟩
        intro c hc
        rw [← hcol0eq, if_pos (by decide)] at hc
        rcases List.mem_map.mp hc with ⟨c0, _, rfl⟩
        exact coerceCell_num_or_nan c0
      have hbase : List.Forall₂ (fun a b => (∃ q, a = Cell.n q ∧ b = Cell.n (q * (5 / 4)))
          ∨ (a = Cell.nan ∧ b = Cell.nan)) upcol (upcol.map mul125) := by
        apply forall₂_map_self
        intro c hc
        rcases hcells c hc with ⟨q, rfl⟩ | rfl
        · exact Or.inl ⟨q, rfl, rfl⟩
        · exact Or.inr ⟨rfl, rfl⟩
      have hmasked := forall₂_applyMask hbase (rowMask cps cts)
      rw [hmcc] at hmasked
      rw [hupc] at hmasked
      rw [hup_eq, hmc_eq] at hmasked
      exact hmasked

/-- Concrete input for the C8 witness: one present price and one null
price, so both branches of the claim occur. -/
def c8WitnessObj : JObj :=
  [("Product", JVal.arr [.s "A", .s "B"]),
   ("U.Price", JVal.arr [.n 2, JScalar.null]),
   ("Total", JVal.arr [.n 3, .n 4])]

/-- Witness for `c8_markup` at a concrete input satisfying its
hypotheses. -/
theorem c8_witness :
    (colGet (processDoc c8WitnessObj "a.pdf") "U.Price" = .ok [Cell.n 2, Cell.nan]
      ∧ colGet (processDoc c8WitnessObj "a.pdf") "Marked_Up_Price"
          = .ok [Cell.n (2 * (5 / 4)), Cell.nan])
    ∧ List.Forall₂ (fun a b => (∃ q, a = Cell.n q ∧ b = Cell.n (q * (5 / 4)))
        ∨ (a = Cell.nan ∧ b = Cell.nan))
      [Cell.n 2, Cell.nan] [Cell.n (2 * (5 / 4)), Cell.nan] :=
  ⟨⟨rfl, rfl⟩, c8_markup c8WitnessObj "a.pdf" _ _ rfl rfl⟩

theorem gemini_findFirst_eq (p : Char → Bool) :
    ∀ (cs : List Char), Gemini.findFirst p cs = findFirst p cs
  | [] => rfl
  | c :: cs => by
    unfold Gemini.findFirst findFirst
    rw [gemini_findFirst_eq p cs]

theorem gemini_findLast_eq (p : Char → Bool) :
    ∀ (cs : List Char), Gemini.findLast p cs = findLast p cs
  | [] => rfl
  | c :: cs => by
    unfold Gemini.findLast findLast
    rw [gemini_findLast_eq p cs]

theorem gemini_alookup_eq {α : Type} :
    ∀ (l : List (String × α)) (k : String), Gemini.alookup l k = alookup l k
  | [], _ => rfl
  | (k0, v) :: rest, k => by
    unfold Gemini.alookup alookup
    rw [gemini_alookup_eq rest k]

theorem gemini_braceSpan_eq (cs : List Char) : Gemini.braceSpan cs = braceSpan cs := by
  unfold Gemini.braceSpan braceSpan
  rw [gemini_findFirst_eq, gemini_findLast_eq]

theorem gemini_colGet_eq (f : Frame) (k : String) : Gemini.colGet f k = colGet f k := by
  unfold Gemini.colGet colGet
  rw [gemini_alookup_eq]

theorem gemini_applyMask_eq {α : Type} :
    ∀ (l : List α) (m : List Bool), Gemini.applyMask l m = applyMask l m
  | [], _ => rfl
  | _ :: _, [] => rfl
  | c :: cs, b :: ms => by
    unfold Gemini.applyMask applyMask
    rw [gemini_applyMask_eq cs ms]

/-- Claim C10: the three core functions are extensionally equal across the
two implementation files — for every input, `extract_json_from_response`,
`ensure_equal_length_arrays` and `clean_dataframe` of
`OCR_Invoices_Output_Excel.py` return the same result as their namesakes in
`OCR_Invoices_Output_Excel_Gemini.py` (embedded in the `Gemini`
namespace). -/
theorem c10_equivalence :
    (∀ (parse : List Char → Option JObj) (text : List Char),
      Gemini.extract_json_from_response parse text = extract_json_from_response parse text)
    ∧ (∀ (j : JObj), Gemini.ensure_equal_length_arrays j = ensure_equal_length_arrays j)
    ∧ (∀ (f : Frame), Gemini.clean_dataframe f = clean_dataframe f) := by
  refine ⟨?_, fun j => rfl, ?_⟩
  · intro parse text
    unfold Gemini.extract_json_from_response extract_json_from_response
    rw [gemini_braceSpan_eq]
    rcases braceSpan text with _ | sub
    · rfl
    · dsimp only
      rcases parse sub with _ | jd
      · rfl
      · dsimp only
        rw [gemini_alookup_eq]
        rcases alookup jd "Product" with _ | v
        · rfl
        · rfl
  · intro f
    unfold Gemini.clean_dataframe clean_dataframe
    rw [gemini_colGet_eq, gemini_colGet_eq]
    rcases colGet f "Product" with e | ps
    · rfl
    · rcases colGet f "Total" with e | ts
      · rfl
      · show Except.ok (f.map fun kv => (kv.1, Gemini.applyMask kv.2 (Gemini.rowMask ps ts)))
          = Except.ok (f.map fun kv => (kv.1, applyMask kv.2 (rowMask ps ts)))
        congr 1
        apply List.map_congr_left
        intro kv _
        rw [gemini_applyMask_eq]
        rfl
